import Mathlib

set_option maxHeartbeats 1000000

/-! Shallow embedding of `modules/toga_sanity_checks.py` (TOGA sanity checks).

Files are modelled as lists of lines (`List String`, each line keeping its
terminator, exactly as Python file iteration yields them) or as raw contents
(`String`); Python dictionaries are association lists with distinct keys;
a raised Python `ValueError` is `Except.error` carrying the message string.
-/

/-- Characters stripped by Python `str.rstrip()` (ASCII whitespace). -/
def pyIsSpaceChar (c : Char) : Bool :=
  c == ' ' || c == '\t' || c == '\n' || c == '\r' || c == Char.ofNat 11 || c == Char.ofNat 12

/-- Python `line.rstrip()`. -/
def pyRstrip (s : String) : String :=
  ⟨(s.data.reverse.dropWhile pyIsSpaceChar).reverse⟩

/-- Helper for `pySplitTab`: the accumulator holds the current field reversed. -/
def splitTabAux : List Char → List Char → List String
  | [], acc => [⟨acc.reverse⟩]
  | c :: rest, acc =>
    if c == '\t' then ⟨acc.reverse⟩ :: splitTabAux rest []
    else splitTabAux rest (c :: acc)

/-- Python `s.split("\t")`. -/
def pySplitTab (s : String) : List String := splitTabAux s.data []

/-- Python `s.isnumeric()` (restricted to ASCII decimal digits, the only
numerics occurring in these tab-separated annotation files). -/
def pyIsNumeric (s : String) : Bool := !s.data.isEmpty && s.data.all Char.isDigit

/-- Python `"".join(lines)`. -/
def joinAll (lines : List String) : String := ⟨(lines.map String.data).flatten⟩

/-- Python `"\n".join(items)`. -/
def joinWithNL : List String → String
  | [] => ""
  | s :: rest => if rest.isEmpty then s else s ++ "\n" ++ joinWithNL rest

/-- Boolean test that `l` starts with `p` (on character lists). -/
def startsWithCL : List Char → List Char → Bool
  | [], _ => true
  | _ :: _, [] => false
  | a :: p, b :: l => a == b && startsWithCL p l

/-- Boolean test that `p` occurs contiguously somewhere in `l`. -/
def containsCL (p : List Char) : List Char → Bool
  | [] => startsWithCL p []
  | c :: rest => startsWithCL p (c :: rest) || containsCL p rest

/-- Boolean test that the string `pat` occurs contiguously in `s`. -/
def strContains (s pat : String) : Bool := containsCL pat.data s.data

/-- Boolean test that the string `s` starts with `pre`. -/
def strStartsWith (s pre : String) : Bool := startsWithCL pre.data s.data

theorem startsWithCL_append (p r : List Char) : startsWithCL p (p ++ r) = true := by
  induction p with
  | nil => rfl
  | cons a p ih => simp [startsWithCL, ih]

theorem containsCL_of_startsWithCL {p l : List Char} (h : startsWithCL p l = true) :
    containsCL p l = true := by
  cases l with
  | nil => simpa [containsCL] using h
  | cons c rest => simp [containsCL, h]

theorem containsCL_append (p l r : List Char) : containsCL p (l ++ (p ++ r)) = true := by
  induction l with
  | nil => exact containsCL_of_startsWithCL (startsWithCL_append p r)
  | cons c l ih => simp [containsCL, ih]

theorem string_data_append (a b : String) : (a ++ b).data = a.data ++ b.data := rfl

theorem strContains_append_mid (a p b : String) : strContains (a ++ (p ++ b)) p = true := by
  have : (a ++ (p ++ b)).data = a.data ++ (p.data ++ b.data) := rfl
  simp only [strContains, this]
  exact containsCL_append p.data a.data b.data

theorem strContains_append_right (a p : String) : strContains (a ++ p) p = true := by
  have h : a ++ p = a ++ (p ++ "") := by
    apply congrArg String.mk
    show a.data ++ p.data = a.data ++ (p.data ++ [])
    simp
  rw [h]
  exact strContains_append_mid a p ""

/-! ### Association-list (Python dict) lemmas -/

theorem lookup_mem {β : Type} {c : String} {m : β} :
    ∀ {tb : List (String × β)}, tb.lookup c = some m → (c, m) ∈ tb := by
  intro tb
  induction tb with
  | nil => intro h; simp [List.lookup] at h
  | cons p rest ih =>
    intro h
    rw [show p = (p.1, p.2) from rfl, List.lookup_cons] at h
    by_cases hc : c == p.1
    · simp [hc] at h
      have : c = p.1 := by exact eq_of_beq hc
      subst this
      subst h
      exact List.mem_cons_self _ _
    · simp [hc] at h
      exact List.mem_cons_of_mem _ (ih h)

theorem mem_lookup_of_nodup {β : Type} {c : String} {m : β} :
    ∀ {tb : List (String × β)}, (tb.map Prod.fst).Nodup → (c, m) ∈ tb →
      tb.lookup c = some m := by
  intro tb
  induction tb with
  | nil => intro _ h; simp at h
  | cons p rest ih =>
    intro hnd hmem
    rw [List.map_cons, List.nodup_cons] at hnd
    rcases List.mem_cons.mp hmem with heq | hmem'
    · subst heq
      simp [List.lookup_cons]
    · have hne : ¬ (c == p.1) = true := by
        intro hbeq
        have hceq : c = p.1 := eq_of_beq hbeq
        exact hnd.1 (List.mem_map.mpr ⟨(c, m), hmem', hceq⟩)
      rw [show p = (p.1, p.2) from rfl, List.lookup_cons]
      simp only [hne]
      exact ih hnd.2 hmem'

theorem lookup_isSome_of_mem_keys {β : Type} {c : String} :
    ∀ {tb : List (String × β)}, c ∈ tb.map Prod.fst → ∃ m, tb.lookup c = some m := by
  intro tb
  induction tb with
  | nil => intro h; simp at h
  | cons p rest ih =>
    intro h
    by_cases hc : c == p.1
    · exact ⟨p.2, by rw [show p = (p.1, p.2) from rfl, List.lookup_cons]; simp [hc]⟩
    · rw [List.map_cons, List.mem_cons] at h
      rcases h with heq | hmem
      · subst heq
        simp at hc
      · obtain ⟨m, hm⟩ := ih hmem
        exact ⟨m, by rw [show p = (p.1, p.2) from rfl, List.lookup_cons]; simp [hc, hm]⟩

/-! ### `check_2bit_file_completeness` -/

/-- Error message for chromosomes of the chain/bed file missing from the 2bit
file (the Python f-string at lines 82-86 of the source). -/
def twobitMissingMsg (two_bit_file chrom_file : String) (chroms_not_in_2bit : List String) : String :=
  "Error! 2bit file: " ++ two_bit_file ++ "; chain/bed file: " ++ chrom_file ++
    ("; Some chromosomes present in the chain/bed file are not found in the " ++
      ("Two bit file. First <=100: " ++ joinWithNL (chroms_not_in_2bit.take 100)))

/-- Error message for a chromosome whose sizes disagree between the 2bit and
chain files (the Python f-string at lines 99-103 of the source). -/
def sizesMismatchMsg (two_bit_file chrom_file chrom : String)
    (twobit_seq_len comp_file_seq_len : Nat) : String :=
  "Error! 2bit file: " ++ two_bit_file ++ "; chain_file: " ++ chrom_file ++
    " Chromosome: " ++ chrom ++ "; Sizes don\x27t match! Size in twobit: " ++
    toString twobit_seq_len ++ "; size in chain: " ++ toString comp_file_seq_len

/-- The `for chrom in intersection` loop of `check_2bit_file_completeness`:
`None` sizes (bed-derived) are skipped, a differing known size raises. -/
def sizeLoop (two_bit_file chrom_file : String) (twobit_seq_to_size : List (String × Nat)) :
    List (String × Option Nat) → Except String Unit
  | [] => .ok ()
  | (chrom, comp_file_seq_len) :: rest =>
    let twobit_seq_len := (twobit_seq_to_size.lookup chrom).getD 0
    match comp_file_seq_len with
    | none => sizeLoop two_bit_file chrom_file twobit_seq_to_size rest
    | some n =>
      if twobit_seq_len = n then sizeLoop two_bit_file chrom_file twobit_seq_to_size rest
      else .error (sizesMismatchMsg two_bit_file chrom_file chrom twobit_seq_len n)

/-- `TogaSanityChecker.check_2bit_file_completeness`, after the 2bit index has
been read into `twobit_seq_to_size` (the `EOFError` branch concerns an
unreadable index and is outside this model).  `chroms_sizes` maps chromosome
names of the chain/bed file to their size, `none` when the source file (a bed
file) carries no size. -/
def check_2bit_file_completeness (two_bit_file : String)
    (twobit_seq_to_size : List (String × Nat))
    (chroms_sizes : List (String × Option Nat)) (chrom_file : String) :
    Except String Unit :=
  let twobit_sequences := twobit_seq_to_size.map Prod.fst
  let chroms_not_in_2bit :=
    (chroms_sizes.map Prod.fst).filter (fun c => decide (c ∉ twobit_sequences))
  if chroms_not_in_2bit.length > 0 then
    .error (twobitMissingMsg two_bit_file chrom_file chroms_not_in_2bit)
  else
    sizeLoop two_bit_file chrom_file twobit_seq_to_size
      (chroms_sizes.filter (fun p => decide (p.1 ∈ twobit_sequences)))

theorem sizeLoop_error_iff (f g : String) (tb : List (String × Nat)) :
    ∀ entries : List (String × Option Nat),
      (∃ e, sizeLoop f g tb entries = .error e) ↔
        ∃ c n, (c, some n) ∈ entries ∧ (tb.lookup c).getD 0 ≠ n := by
  intro entries
  induction entries with
  | nil =>
    constructor
    · rintro ⟨e, he⟩; simp [sizeLoop] at he
    · rintro ⟨c, n, hmem, _⟩; simp at hmem
  | cons p rest ih =>
    obtain ⟨c, v⟩ := p
    cases v with
    | none =>
      constructor
      · rintro ⟨e, he⟩
        rw [sizeLoop] at he
        obtain ⟨c', n', hmem, hne⟩ := ih.mp ⟨e, he⟩
        exact ⟨c', n', List.mem_cons_of_mem _ hmem, hne⟩
      · rintro ⟨c', n', hmem, hne⟩
        rcases List.mem_cons.mp hmem with heq | hmem'
        · exact absurd heq (by simp)
        · obtain ⟨e, he⟩ := ih.mpr ⟨c', n', hmem', hne⟩
          exact ⟨e, by rw [sizeLoop]; exact he⟩
    | some n =>
      by_cases hEq : (tb.lookup c).getD 0 = n
      · constructor
        · rintro ⟨e, he⟩
          rw [sizeLoop] at he
          simp only [hEq, if_pos rfl] at he
          obtain ⟨c', n', hmem, hne⟩ := ih.mp ⟨e, he⟩
          exact ⟨c', n', List.mem_cons_of_mem _ hmem, hne⟩
        · rintro ⟨c', n', hmem, hne⟩
          rcases List.mem_cons.mp hmem with heq | hmem'
          · injection heq with hc hn
            injection hn with hn
            subst hc
            subst hn
            exact absurd hEq hne
          · obtain ⟨e, he⟩ := ih.mpr ⟨c', n', hmem', hne⟩
            refine ⟨e, ?_⟩
            rw [sizeLoop]
            simp only [hEq, if_pos rfl]
            exact he
      · constructor
        · rintro ⟨e, _⟩
          exact ⟨c, n, List.mem_cons_self _ _, hEq⟩
        · rintro ⟨c', n', _, _⟩
          refine ⟨sizesMismatchMsg f g c ((tb.lookup c).getD 0) n, ?_⟩
          rw [sizeLoop]
          simp only [if_neg hEq]

/-- C1: `check_2bit_file_completeness` raises an error iff some chromosome of
the size map is absent from the 2bit index, or some chromosome present in both
has a known (`some`) size in the map differing from the index size; unknown
(`none`) sizes are exempt from the comparison but not from the existence
check, and with no violation the call returns `()` successfully. -/
theorem c1_check_2bit_error_iff (two_bit_file chrom_file : String)
    (tb : List (String × Nat)) (cs : List (String × Option Nat))
    (htb : (tb.map Prod.fst).Nodup) (hcs : (cs.map Prod.fst).Nodup) :
    ((∃ e, check_2bit_file_completeness two_bit_file tb cs chrom_file = .error e) ↔
      ((∃ c ∈ cs.map Prod.fst, c ∉ tb.map Prod.fst) ∨
        (∃ c n m, (c, some n) ∈ cs ∧ (c, m) ∈ tb ∧ m ≠ n))) ∧
    (¬ ((∃ c ∈ cs.map Prod.fst, c ∉ tb.map Prod.fst) ∨
        (∃ c n m, (c, some n) ∈ cs ∧ (c, m) ∈ tb ∧ m ≠ n)) →
      check_2bit_file_completeness two_bit_file tb cs chrom_file = .ok ()) := by
  have main : (∃ e, check_2bit_file_completeness two_bit_file tb cs chrom_file = .error e) ↔
      ((∃ c ∈ cs.map Prod.fst, c ∉ tb.map Prod.fst) ∨
        (∃ c n m, (c, some n) ∈ cs ∧ (c, m) ∈ tb ∧ m ≠ n)) := by
    simp only [check_2bit_file_completeness]
    by_cases hmiss :
        (List.filter (fun c => decide (c ∉ tb.map Prod.fst)) (cs.map Prod.fst)).length > 0
    · rw [if_pos hmiss]
      constructor
      · intro _
        left
        have hne : List.filter (fun c => decide (c ∉ tb.map Prod.fst)) (cs.map Prod.fst) ≠ [] :=
          List.length_pos.mp hmiss
        obtain ⟨c, hc⟩ := List.exists_mem_of_ne_nil _ hne
        rw [List.mem_filter] at hc
        exact ⟨c, hc.1, by simpa using hc.2⟩
      · intro _; exact ⟨_, rfl⟩
    · rw [if_neg hmiss]
      have hnil : List.filter (fun c => decide (c ∉ tb.map Prod.fst)) (cs.map Prod.fst) = [] :=
        List.length_eq_zero.mp (Nat.eq_zero_of_not_pos hmiss)
      have hall : ∀ c ∈ cs.map Prod.fst, c ∈ tb.map Prod.fst := by
        intro c hc
        by_contra hnc
        have hcmem : c ∈ List.filter (fun c => decide (c ∉ tb.map Prod.fst)) (cs.map Prod.fst) :=
          List.mem_filter.mpr ⟨hc, by simpa using hnc⟩
        rw [hnil] at hcmem
        simp at hcmem
      have hfilt : List.filter (fun p => decide (p.1 ∈ tb.map Prod.fst)) cs = cs := by
        rw [List.filter_eq_self]
        intro p hp
        exact decide_eq_true (hall p.1 (List.mem_map.mpr ⟨p, hp, rfl⟩))
      rw [hfilt, sizeLoop_error_iff]
      constructor
      · rintro ⟨c, n, hmem, hne⟩
        right
        have hckeys : c ∈ tb.map Prod.fst :=
          hall c (List.mem_map.mpr ⟨(c, some n), hmem, rfl⟩)
        obtain ⟨m, hm⟩ := lookup_isSome_of_mem_keys hckeys
        refine ⟨c, n, m, hmem, lookup_mem hm, ?_⟩
        rw [hm] at hne
        simpa using hne
      · rintro (⟨c, hc, hnc⟩ | ⟨c, n, m, hmemcs, hmemtb, hne⟩)
        · exact absurd (hall c hc) hnc
        · refine ⟨c, n, hmemcs, ?_⟩
          rw [mem_lookup_of_nodup htb hmemtb]
          simpa using hne
  refine ⟨main, fun hno => ?_⟩
  cases hres : check_2bit_file_completeness two_bit_file tb cs chrom_file with
  | ok u => cases u; rfl
  | error e => exact absurd (main.mp ⟨e, hres⟩) hno

/-- Witness for C1 at a concrete input: a size map with one matching known
size, one unknown size, and one missing chromosome makes the checker raise. -/
theorem c1_check_2bit_error_iff_witness :
    ∃ e, check_2bit_file_completeness "genome.2bit" [("chr1", 100), ("chr2", 50)]
      [("chr1", some 100), ("chr2", none), ("chr3", some 7)] "chains.chain" = .error e :=
  (c1_check_2bit_error_iff "genome.2bit" "chains.chain"
    [("chr1", 100), ("chr2", 50)] [("chr1", some 100), ("chr2", none), ("chr3", some 7)]
    (by decide) (by decide)).1.mpr
    (Or.inl ⟨"chr3", by decide, by decide⟩)

/-! ### `check_and_write_u12_file` -/

/-- Source constant `U12_FILE_COLS`. -/
def U12_FILE_COLS : Nat := 3

/-- Source constant `U12_AD_FIELD` (a two-element set, modelled as a list). -/
def U12_AD_FIELD : List String := ["A", "D"]

/-- Error message for a U12 line with a wrong field count (source lines 119-122). -/
def u12BadFieldCountMsg (u12_arg : String) (num got : Nat) : String :=
  "Error! U12 file " ++ u12_arg ++ " line " ++ toString num ++
    " is corrupted, 3 fields expected; Got " ++ toString got ++
    "; please note that a tab-separated file expected"

/-- Error message for a non-numeric field 2 (source lines 130-134). -/
def u12BadExonMsg (u12_arg : String) (num : Nat) (exon_num : String) : String :=
  "Error! U12 file " ++ u12_arg ++ " line " ++ toString num ++
    " is corrupted, field 2 value is " ++ exon_num ++
    "; This field must contain a numeric value (exon number)."

/-- Error message for a field 3 outside `{A, D}` (source lines 138-141). -/
def u12BadADMsg (u12_arg : String) (num : Nat) (acc_don : String) : String :=
  "Error! U12 file " ++ u12_arg ++ " line " ++ toString num ++
    " is corrupted, field 3 value is " ++ acc_don ++
    "; This field could have either A or D value."

/-- Error message when no line survives the filter (source lines 147-150). -/
def u12EmptyMsg (u12_arg : String) : String :=
  "Error! No lines left in the " ++ u12_arg ++ " file after filter." ++
    "Please check that transcript IDs in this file and input bed file are consistent"

/-- The `for num, line in enumerate(f, 1)` loop of `check_and_write_u12_file`:
validates each line and collects into `filt_lines` the raw lines whose
transcript id is in `t_in_bed`. -/
def u12CheckLines (u12_arg : String) (t_in_bed : List String) :
    Nat → List String → Except String (List String)
  | _, [] => .ok []
  | num, line :: rest =>
    let line_data := pySplitTab (pyRstrip line)
    if line_data.length ≠ U12_FILE_COLS then
      .error (u12BadFieldCountMsg u12_arg num line_data.length)
    else if line_data.getD 0 "" ∉ t_in_bed then
      u12CheckLines u12_arg t_in_bed (num + 1) rest
    else if pyIsNumeric (line_data.getD 1 "") = false then
      .error (u12BadExonMsg u12_arg num (line_data.getD 1 ""))
    else if line_data.getD 2 "" ∉ U12_AD_FIELD then
      .error (u12BadADMsg u12_arg num (line_data.getD 2 ""))
    else
      match u12CheckLines u12_arg t_in_bed (num + 1) rest with
      | .error e => .error e
      | .ok filt_lines => .ok (line :: filt_lines)

/-- `TogaSanityChecker.check_and_write_u12_file`.  `u12_arg` is the optional
U12 file path, `u12_lines` the lines Python file iteration yields for it,
`t_in_bed` the transcript identifier set, and `fs` the files of the temp
working directory (name-content pairs); the pair returned is the directory
after the call together with the returned value or raised error. -/
def check_and_write_u12_file (u12_arg : Option String) (u12_lines : List String)
    (t_in_bed : List String) (temp_wd : String) (fs : List (String × String)) :
    List (String × String) × Except String (Option String) :=
  match u12_arg with
  | none => (fs, .ok none)
  | some u12_path =>
    let u12_saved_file := temp_wd ++ "/u12_data.txt"
    match u12CheckLines u12_path t_in_bed 1 u12_lines with
    | .error e => (fs, .error e)
    | .ok filt_lines =>
      if filt_lines.length = 0 then (fs, .error (u12EmptyMsg u12_path))
      else ((u12_saved_file, joinAll filt_lines) :: fs, .ok (some u12_saved_file))

/-- The transcript id (first tab field after `rstrip`) of a U12 line is in the
transcript identifier set. -/
def u12InBed (t_in_bed : List String) (line : String) : Bool :=
  decide ((pySplitTab (pyRstrip line)).getD 0 "" ∈ t_in_bed)

/-- A U12 line passes the per-line validation of the loop: three fields, and
when its transcript is in the set, a numeric field 2 and a field 3 in `{A,D}`. -/
def u12LineOK (t_in_bed : List String) (line : String) : Bool :=
  let d := pySplitTab (pyRstrip line)
  decide (d.length = U12_FILE_COLS) &&
    (decide (d.getD 0 "" ∉ t_in_bed) ||
      (pyIsNumeric (d.getD 1 "") && decide (d.getD 2 "" ∈ U12_AD_FIELD)))

/-- A U12 line is fully well-formed: three fields, numeric field 2, field 3 in
`{A,D}` (regardless of the transcript set). -/
def u12LineValid (line : String) : Bool :=
  let d := pySplitTab (pyRstrip line)
  decide (d.length = U12_FILE_COLS) && pyIsNumeric (d.getD 1 "") &&
    decide (d.getD 2 "" ∈ U12_AD_FIELD)

theorem u12LineOK_of_valid {t_in_bed : List String} {line : String}
    (h : u12LineValid line = true) : u12LineOK t_in_bed line = true := by
  rw [u12LineValid] at h
  rw [u12LineOK]
  simp only [Bool.and_eq_true, decide_eq_true_eq] at h
  simp only [Bool.and_eq_true, Bool.or_eq_true, decide_eq_true_eq]
  exact ⟨h.1.1, Or.inr ⟨h.1.2, h.2⟩⟩

theorem u12CheckLines_ok_all (u12_arg : String) (t_in_bed : List String) :
    ∀ (num : Nat) (lines : List String), (∀ l ∈ lines, u12LineOK t_in_bed l = true) →
      u12CheckLines u12_arg t_in_bed num lines = .ok (lines.filter (u12InBed t_in_bed)) := by
  intro num lines
  induction lines generalizing num with
  | nil => intro _; rfl
  | cons line rest ih =>
    intro h
    have hline := h line (List.mem_cons_self _ _)
    have hrest : ∀ l ∈ rest, u12LineOK t_in_bed l = true :=
      fun l hl => h l (List.mem_cons_of_mem _ hl)
    rw [u12LineOK] at hline
    simp only [Bool.and_eq_true, Bool.or_eq_true, decide_eq_true_eq] at hline
    obtain ⟨hlen, hline2⟩ := hline
    rw [u12CheckLines]
    rw [if_neg (by simp [hlen])]
    by_cases hmem : (pySplitTab (pyRstrip line)).getD 0 "" ∈ t_in_bed
    · rw [if_neg (not_not_intro hmem)]
      rcases hline2 with hno | ⟨hnum, had⟩
      · exact absurd hmem hno
      · rw [if_neg (fun hf => by rw [hnum] at hf; exact Bool.noConfusion hf),
          if_neg (not_not_intro had), ih _ hrest]
        have : u12InBed t_in_bed line = true := by
          rw [u12InBed]; simpa using hmem
        simp [List.filter_cons, this]
    · rw [if_pos hmem]
      rw [ih _ hrest]
      have : u12InBed t_in_bed line = false := by
        rw [u12InBed]; simpa using hmem
      simp [List.filter_cons, this]

theorem u12CheckLines_ok_elim (u12_arg : String) (t_in_bed : List String) :
    ∀ (num : Nat) (lines filt : List String),
      u12CheckLines u12_arg t_in_bed num lines = .ok filt →
      (∀ l ∈ lines, u12LineOK t_in_bed l = true) ∧ filt = lines.filter (u12InBed t_in_bed) := by
  intro num lines
  induction lines generalizing num with
  | nil =>
    intro filt h
    rw [u12CheckLines] at h
    injection h with h
    exact ⟨by intro l hl; simp at hl, h.symm⟩
  | cons line rest ih =>
    intro filt h
    rw [u12CheckLines] at h
    by_cases hlen : (pySplitTab (pyRstrip line)).length ≠ U12_FILE_COLS
    · rw [if_pos hlen] at h; exact Except.noConfusion h
    · rw [if_neg hlen] at h
      rw [Classical.not_not] at hlen
      by_cases hmem : (pySplitTab (pyRstrip line)).getD 0 "" ∈ t_in_bed
      · rw [if_neg (not_not_intro hmem)] at h
        by_cases hnum : pyIsNumeric ((pySplitTab (pyRstrip line)).getD 1 "") = false
        · rw [if_pos hnum] at h; exact Except.noConfusion h
        · rw [if_neg hnum] at h
          by_cases had : (pySplitTab (pyRstrip line)).getD 2 "" ∉ U12_AD_FIELD
          · rw [if_pos had] at h; exact Except.noConfusion h
          · rw [if_neg had] at h
            rw [Classical.not_not] at had
            cases hrec : u12CheckLines u12_arg t_in_bed (num + 1) rest with
            | error e => rw [hrec] at h; exact Except.noConfusion h
            | ok filt' =>
              rw [hrec] at h
              injection h with h
              obtain ⟨hall, hfilt⟩ := ih _ _ hrec
              constructor
              · intro l hl
                rcases List.mem_cons.mp hl with heq | hl'
                · subst heq
                  rw [u12LineOK]
                  simp only [Bool.and_eq_true, Bool.or_eq_true, decide_eq_true_eq]
                  refine ⟨hlen, Or.inr ⟨?_, had⟩⟩
                  cases hb : pyIsNumeric ((pySplitTab (pyRstrip l)).getD 1 "") with
                  | false => exact absurd hb hnum
                  | true => rfl
                · exact hall l hl'
              · have hin : u12InBed t_in_bed line = true := by
                  rw [u12InBed]; simpa using hmem
                rw [← h, hfilt]
                simp [List.filter_cons, hin]
      · rw [if_pos hmem] at h
        obtain ⟨hall, hfilt⟩ := ih _ _ h
        constructor
        · intro l hl
          rcases List.mem_cons.mp hl with heq | hl'
          · subst heq
            rw [u12LineOK]
            simp only [Bool.and_eq_true, Bool.or_eq_true, decide_eq_true_eq]
            exact ⟨hlen, Or.inl hmem⟩
          · exact hall l hl'
        · have hin : u12InBed t_in_bed line = false := by
            rw [u12InBed]; simpa using hmem
          rw [hfilt]
          simp [List.filter_cons, hin]

/-- C2: for a U12 file in which every line has exactly 3 tab-separated fields
with a numeric field 2 and a field 3 in `{A,D}`, and at least one line whose
transcript id is in the set, `check_and_write_u12_file` succeeds, writes into
the working directory the file `u12_data.txt` whose content is exactly the
concatenation, in original order and verbatim, of the input lines whose
transcript id is in the set, and returns that file's path. -/
theorem c2_u12_success (u12_path temp_wd : String) (u12_lines t_in_bed : List String)
    (fs : List (String × String))
    (hvalid : ∀ l ∈ u12_lines, u12LineValid l = true)
    (hhit : ∃ l ∈ u12_lines, u12InBed t_in_bed l = true) :
    check_and_write_u12_file (some u12_path) u12_lines t_in_bed temp_wd fs =
      ((temp_wd ++ "/u12_data.txt", joinAll (u12_lines.filter (u12InBed t_in_bed))) :: fs,
        .ok (some (temp_wd ++ "/u12_data.txt"))) := by
  have hok : ∀ l ∈ u12_lines, u12LineOK t_in_bed l = true :=
    fun l hl => u12LineOK_of_valid (hvalid l hl)
  have hne : (u12_lines.filter (u12InBed t_in_bed)).length ≠ 0 := by
    obtain ⟨l, hl, hb⟩ := hhit
    have hmem : l ∈ u12_lines.filter (u12InBed t_in_bed) := List.mem_filter.mpr ⟨hl, hb⟩
    intro h0
    rw [List.length_eq_zero.mp h0] at hmem
    simp at hmem
  simp only [check_and_write_u12_file]
  rw [u12CheckLines_ok_all _ _ _ _ hok]
  simp [hne]

/-- Witness for C2: a two-line file, one line in the set and one filtered out. -/
theorem c2_u12_success_witness :
    check_and_write_u12_file (some "u12.tsv") ["t1\t1\tA\n", "tx\t2\tD\n"] ["t1"] "wd" [] =
      (("wd" ++ "/u12_data.txt",
          joinAll ((["t1\t1\tA\n", "tx\t2\tD\n"] : List String).filter (u12InBed ["t1"]))) :: [],
        .ok (some ("wd" ++ "/u12_data.txt"))) :=
  c2_u12_success "u12.tsv" "wd" ["t1\t1\tA\n", "tx\t2\tD\n"] ["t1"] []
    (by decide) (by decide)

/-- C5 counterexample: a 3-field line with a non-numeric field 2 (and an
invalid field 3) whose transcript id is outside the set is silently skipped,
so, contrary to the claim, no fatal format error is raised. -/
theorem c5_counterexample :
    (pySplitTab (pyRstrip "bad\tx\tZ\n")).length = 3 ∧
    pyIsNumeric ((pySplitTab (pyRstrip "bad\tx\tZ\n")).getD 1 "") = false ∧
    (pySplitTab (pyRstrip "bad\tx\tZ\n")).getD 2 "" ∉ U12_AD_FIELD ∧
    ∀ e, (check_and_write_u12_file (some "u12.tsv") ["bad\tx\tZ\n", "t1\t5\tA\n"]
        ["t1"] "wd" []).2 ≠ .error e := by
  refine ⟨by decide, by decide, by decide, ?_⟩
  have hres : (check_and_write_u12_file (some "u12.tsv") ["bad\tx\tZ\n", "t1\t5\tA\n"]
      ["t1"] "wd" []).2 = .ok (some "wd/u12_data.txt") := by rfl
  intro e h
  rw [hres] at h
  exact Except.noConfusion h

theorem startsWithCL_mono : ∀ (p l r : List Char), startsWithCL p l = true →
    startsWithCL p (l ++ r) = true
  | [], _, _, _ => rfl
  | a :: p, [], r, h => by rw [startsWithCL] at h; exact Bool.noConfusion h
  | a :: p, b :: l, r, h => by
    rw [startsWithCL] at h
    rw [List.cons_append, startsWithCL]
    simp only [Bool.and_eq_true] at h ⊢
    exact ⟨h.1, startsWithCL_mono p l r h.2⟩

theorem containsCL_mono_right (p : List Char) : ∀ (l r : List Char),
    containsCL p l = true → containsCL p (l ++ r) = true := by
  intro l
  induction l with
  | nil =>
    intro r h
    rw [containsCL] at h
    have hp : p = [] := by
      cases p with
      | nil => rfl
      | cons a q => rw [startsWithCL] at h; exact Bool.noConfusion h
    subst hp
    cases r with
    | nil => rfl
    | cons c cs => simp [containsCL, startsWithCL]
  | cons c l ih =>
    intro r h
    rw [containsCL] at h
    rw [List.cons_append, containsCL]
    simp only [Bool.or_eq_true] at h ⊢
    rcases h with hs | hc
    · exact Or.inl (startsWithCL_mono p (c :: l) r hs)
    · exact Or.inr (ih r hc)

theorem strContains_mono_right (s r pat : String) (h : strContains s pat = true) :
    strContains (s ++ r) pat = true := by
  rw [strContains, string_data_append]
  rw [strContains] at h
  exact containsCL_mono_right pat.data s.data r.data h

/-- The wrong-field-count message names the offending value (the count). -/
theorem u12BadFieldCountMsg_names (u12_arg : String) (num got : Nat) :
    strContains (u12BadFieldCountMsg u12_arg num got) (toString got) = true := by
  rw [u12BadFieldCountMsg]
  exact strContains_mono_right _ _ _ (strContains_append_right _ _)

/-- The non-numeric-field-2 message names the offending value. -/
theorem u12BadExonMsg_names (u12_arg : String) (num : Nat) (exon_num : String) :
    strContains (u12BadExonMsg u12_arg num exon_num) exon_num = true := by
  rw [u12BadExonMsg]
  exact strContains_mono_right _ _ _ (strContains_append_right _ _)

/-- The invalid-field-3 message names the offending value. -/
theorem u12BadADMsg_names (u12_arg : String) (num : Nat) (acc_don : String) :
    strContains (u12BadADMsg u12_arg num acc_don) acc_don = true := by
  rw [u12BadADMsg]
  exact strContains_mono_right _ _ _ (strContains_append_right _ _)

/-- Every error the U12 loop raises is one of the three per-line corrupted
messages, instantiated at a line of the file that actually violates the
corresponding check. -/
theorem u12CheckLines_error_elim (u12_arg : String) (t_in_bed : List String) :
    ∀ (num : Nat) (lines : List String) (e : String),
      u12CheckLines u12_arg t_in_bed num lines = .error e →
      ∃ l ∈ lines, ∃ k,
        ((pySplitTab (pyRstrip l)).length ≠ U12_FILE_COLS ∧
          e = u12BadFieldCountMsg u12_arg k (pySplitTab (pyRstrip l)).length) ∨
        ((pySplitTab (pyRstrip l)).getD 0 "" ∈ t_in_bed ∧
          pyIsNumeric ((pySplitTab (pyRstrip l)).getD 1 "") = false ∧
          e = u12BadExonMsg u12_arg k ((pySplitTab (pyRstrip l)).getD 1 "")) ∨
        ((pySplitTab (pyRstrip l)).getD 0 "" ∈ t_in_bed ∧
          (pySplitTab (pyRstrip l)).getD 2 "" ∉ U12_AD_FIELD ∧
          e = u12BadADMsg u12_arg k ((pySplitTab (pyRstrip l)).getD 2 "")) := by
  intro num lines
  induction lines generalizing num with
  | nil =>
    intro e h
    rw [u12CheckLines] at h
    exact Except.noConfusion h
  | cons line rest ih =>
    intro e h
    rw [u12CheckLines] at h
    by_cases hlen : (pySplitTab (pyRstrip line)).length ≠ U12_FILE_COLS
    · rw [if_pos hlen] at h
      injection h with h
      exact ⟨line, List.mem_cons_self _ _, num, Or.inl ⟨hlen, h.symm⟩⟩
    · rw [if_neg hlen] at h
      by_cases hmem : (pySplitTab (pyRstrip line)).getD 0 "" ∈ t_in_bed
      · rw [if_neg (not_not_intro hmem)] at h
        by_cases hnum : pyIsNumeric ((pySplitTab (pyRstrip line)).getD 1 "") = false
        · rw [if_pos hnum] at h
          injection h with h
          exact ⟨line, List.mem_cons_self _ _, num, Or.inr (Or.inl ⟨hmem, hnum, h.symm⟩)⟩
        · rw [if_neg hnum] at h
          by_cases had : (pySplitTab (pyRstrip line)).getD 2 "" ∉ U12_AD_FIELD
          · rw [if_pos had] at h
            injection h with h
            exact ⟨line, List.mem_cons_self _ _, num, Or.inr (Or.inr ⟨hmem, had, h.symm⟩)⟩
          · rw [if_neg had] at h
            cases hrec : u12CheckLines u12_arg t_in_bed (num + 1) rest with
            | error e2 =>
              rw [hrec] at h
              injection h with h
              obtain ⟨l, hl, k, hcase⟩ := ih (num + 1) e2 hrec
              exact ⟨l, List.mem_cons_of_mem _ hl, k, h ▸ hcase⟩
            | ok filt2 =>
              rw [hrec] at h
              exact Except.noConfusion h
      · rw [if_pos hmem] at h
        obtain ⟨l, hl, k, hcase⟩ := ih (num + 1) e h
        exact ⟨l, List.mem_cons_of_mem _ hl, k, hcase⟩

/-- C5 amended: for every line with exactly 3 tab-separated fields whose
transcript id IS in the transcript identifier set, `check_and_write_u12_file`
raises a fatal format error whenever field 2 is not entirely numeric or
field 3 is not exactly `A` or `D`; the raised error is one of the per-line
corrupted-file messages, instantiated at a line of the file that actually
violates its check, and it names that line's offending value (under
fail-fast this may be an earlier invalid line's value).  Lines whose
transcript id is not in the set are dropped without any field validation. -/
theorem c5_amended (u12_path temp_wd line : String) (u12_lines t_in_bed : List String)
    (fs : List (String × String))
    (hmem : line ∈ u12_lines)
    (hlen : (pySplitTab (pyRstrip line)).length = 3)
    (hin : (pySplitTab (pyRstrip line)).getD 0 "" ∈ t_in_bed)
    (hbad : pyIsNumeric ((pySplitTab (pyRstrip line)).getD 1 "") = false ∨
      (pySplitTab (pyRstrip line)).getD 2 "" ∉ U12_AD_FIELD) :
    ∃ e, (check_and_write_u12_file (some u12_path) u12_lines t_in_bed temp_wd fs).2 =
        .error e ∧
      ∃ l ∈ u12_lines, ∃ k,
        ((pySplitTab (pyRstrip l)).length ≠ U12_FILE_COLS ∧
          e = u12BadFieldCountMsg u12_path k (pySplitTab (pyRstrip l)).length ∧
          strContains e (toString (pySplitTab (pyRstrip l)).length) = true) ∨
        ((pySplitTab (pyRstrip l)).getD 0 "" ∈ t_in_bed ∧
          pyIsNumeric ((pySplitTab (pyRstrip l)).getD 1 "") = false ∧
          e = u12BadExonMsg u12_path k ((pySplitTab (pyRstrip l)).getD 1 "") ∧
          strContains e ((pySplitTab (pyRstrip l)).getD 1 "") = true) ∨
        ((pySplitTab (pyRstrip l)).getD 0 "" ∈ t_in_bed ∧
          (pySplitTab (pyRstrip l)).getD 2 "" ∉ U12_AD_FIELD ∧
          e = u12BadADMsg u12_path k ((pySplitTab (pyRstrip l)).getD 2 "") ∧
          strContains e ((pySplitTab (pyRstrip l)).getD 2 "") = true) := by
  cases hc : u12CheckLines u12_path t_in_bed 1 u12_lines with
  | error e =>
    obtain ⟨l, hl, k, hcase⟩ := u12CheckLines_error_elim u12_path t_in_bed 1 u12_lines e hc
    refine ⟨e, ?_, l, hl, k, ?_⟩
    · simp only [check_and_write_u12_file, hc]
    · rcases hcase with ⟨h1, h2⟩ | ⟨h1, h2, h3⟩ | ⟨h1, h2, h3⟩
      · exact Or.inl ⟨h1, h2, by rw [h2]; exact u12BadFieldCountMsg_names _ _ _⟩
      · exact Or.inr (Or.inl ⟨h1, h2, h3, by rw [h3]; exact u12BadExonMsg_names _ _ _⟩)
      · exact Or.inr (Or.inr ⟨h1, h2, h3, by rw [h3]; exact u12BadADMsg_names _ _ _⟩)
  | ok filt =>
    exfalso
    have hall := (u12CheckLines_ok_elim u12_path t_in_bed 1 u12_lines filt hc).1
    have hlOK := hall line hmem
    rw [u12LineOK] at hlOK
    simp only [Bool.and_eq_true, Bool.or_eq_true, decide_eq_true_eq] at hlOK
    rcases hlOK.2 with hno | ⟨hnum, had⟩
    · exact hno hin
    · rcases hbad with hb | hb
      · rw [hnum] at hb; exact Bool.noConfusion hb
      · exact hb had

/-- Witness for C5 amended: an in-set line with non-numeric field 2 raises a
format error naming the offending value. -/
theorem c5_amended_witness :
    ∃ e, (check_and_write_u12_file (some "u12.tsv") ["t1\tx\tA\n"] ["t1"] "wd" []).2 =
        .error e ∧
      ∃ l ∈ (["t1\tx\tA\n"] : List String), ∃ k,
        ((pySplitTab (pyRstrip l)).length ≠ U12_FILE_COLS ∧
          e = u12BadFieldCountMsg "u12.tsv" k (pySplitTab (pyRstrip l)).length ∧
          strContains e (toString (pySplitTab (pyRstrip l)).length) = true) ∨
        ((pySplitTab (pyRstrip l)).getD 0 "" ∈ (["t1"] : List String) ∧
          pyIsNumeric ((pySplitTab (pyRstrip l)).getD 1 "") = false ∧
          e = u12BadExonMsg "u12.tsv" k ((pySplitTab (pyRstrip l)).getD 1 "") ∧
          strContains e ((pySplitTab (pyRstrip l)).getD 1 "") = true) ∨
        ((pySplitTab (pyRstrip l)).getD 0 "" ∈ (["t1"] : List String) ∧
          (pySplitTab (pyRstrip l)).getD 2 "" ∉ U12_AD_FIELD ∧
          e = u12BadADMsg "u12.tsv" k ((pySplitTab (pyRstrip l)).getD 2 "") ∧
          strContains e ((pySplitTab (pyRstrip l)).getD 2 "") = true) :=
  c5_amended "u12.tsv" "wd" "t1\tx\tA\n" ["t1\tx\tA\n"] ["t1"] []
    (by decide) (by decide) (by decide) (Or.inl (by decide))

/-- C6: for a provided U12 file in which every line is well-formed but no
line's transcript id is in the set — in particular for an empty file —
`check_and_write_u12_file` raises the empty-after-filter fatal error. -/
theorem c6_u12_empty_after_filter (u12_path temp_wd : String)
    (u12_lines t_in_bed : List String) (fs : List (String × String))
    (h : ∀ l ∈ u12_lines, u12LineValid l = true ∧ u12InBed t_in_bed l = false) :
    (check_and_write_u12_file (some u12_path) u12_lines t_in_bed temp_wd fs).2 =
      .error (u12EmptyMsg u12_path) := by
  have hok : ∀ l ∈ u12_lines, u12LineOK t_in_bed l = true :=
    fun l hl => u12LineOK_of_valid (h l hl).1
  have hfilt : u12_lines.filter (u12InBed t_in_bed) = [] :=
    List.filter_eq_nil_iff.mpr (fun l hl => by rw [(h l hl).2]; simp)
  simp only [check_and_write_u12_file]
  rw [u12CheckLines_ok_all _ _ _ _ hok, hfilt]
  rfl

/-- Witness for C6: a well-formed file whose only transcript is out of set,
and (vacuously through the same theorem) the empty file. -/
theorem c6_u12_empty_after_filter_witness :
    (check_and_write_u12_file (some "u12.tsv") ["tx\t1\tA\n"] ["t1"] "wd" []).2 =
      .error (u12EmptyMsg "u12.tsv") :=
  c6_u12_empty_after_filter "u12.tsv" "wd" ["tx\t1\tA\n"] ["t1"] [] (by decide)

/-- C10: `check_and_write_u12_file` is atomic for its output file: on every
failing run and on the absent-path run the temp working directory is returned
unchanged — `u12_data.txt` is written only after all lines validated and the
non-empty-result check passed. -/
theorem c10_u12_atomic (u12_arg : Option String) (temp_wd : String)
    (u12_lines t_in_bed : List String) (fs : List (String × String))
    (h : (∃ e, (check_and_write_u12_file u12_arg u12_lines t_in_bed temp_wd fs).2 = .error e) ∨
      (check_and_write_u12_file u12_arg u12_lines t_in_bed temp_wd fs).2 = .ok none) :
    (check_and_write_u12_file u12_arg u12_lines t_in_bed temp_wd fs).1 = fs := by
  cases u12_arg with
  | none => rfl
  | some p =>
    cases hc : u12CheckLines p t_in_bed 1 u12_lines with
    | error e => simp [check_and_write_u12_file, hc]
    | ok filt =>
      by_cases h0 : filt.length = 0
      · simp [check_and_write_u12_file, hc, h0]
      · exfalso
        have hres : (check_and_write_u12_file (some p) u12_lines t_in_bed temp_wd fs).2 =
            .ok (some (temp_wd ++ "/u12_data.txt")) := by
          simp [check_and_write_u12_file, hc, h0]
        rcases h with ⟨e, he⟩ | hnone
        · rw [hres] at he; exact Except.noConfusion he
        · rw [hres] at hnone
          injection hnone with hnone
          exact Option.noConfusion hnone

/-- Witness for C10: a failing run (empty file, hence empty-after-filter
error) leaves a non-empty working directory untouched. -/
theorem c10_u12_atomic_witness :
    (check_and_write_u12_file (some "u12.tsv") [] ["t1"] "wd" [("a.txt", "a")]).1 =
      [("a.txt", "a")] :=
  c10_u12_atomic (some "u12.tsv") "wd" [] ["t1"] [("a.txt", "a")]
    (Or.inl ⟨u12EmptyMsg "u12.tsv", rfl⟩)

/-! ### Python line decomposition, for re-reading an emitted file (C9) -/

/-- Helper for `splitLinesPy`: the accumulator holds the current partial line
reversed. -/
def splitLinesAux : List Char → List Char → List String
  | [], acc => if acc.isEmpty then [] else [⟨acc.reverse⟩]
  | c :: rest, acc =>
    if c = '\n' then ⟨(c :: acc).reverse⟩ :: splitLinesAux rest []
    else splitLinesAux rest (c :: acc)

/-- Python file iteration over a raw content string: the lines, each keeping
its terminating newline; a final line without a newline is yielded as-is. -/
def splitLinesPy (s : String) : List String := splitLinesAux s.data []

/-- A string Python file iteration could yield as one line: nonempty, with no
newline before its final character. -/
def lineChunkOK (s : String) : Bool :=
  !s.data.isEmpty && !(s.data.dropLast.contains '\n')

/-- `lines` is a possible Python line decomposition of a file: every line is a
chunk and every line except the last ends with a newline. -/
def linesChunksOK : List String → Bool
  | [] => true
  | l :: rest =>
    lineChunkOK l &&
      (rest.isEmpty || ((l.data.getLast? == some '\n') && linesChunksOK rest))

theorem splitLinesAux_chunk :
    ∀ (m : List Char), m.contains '\n' = false → ∀ (r acc : List Char),
      splitLinesAux (m ++ '\n' :: r) acc = ⟨acc.reverse ++ m ++ ['\n']⟩ :: splitLinesAux r [] := by
  intro m
  induction m with
  | nil =>
    intro _ r acc
    simp [splitLinesAux]
  | cons c m ih =>
    intro h r acc
    rw [List.contains_cons] at h
    simp only [Bool.or_eq_false_iff] at h
    have hc : ¬ c = '\n' := by
      intro hEq
      rw [hEq] at h
      simp at h
    rw [List.cons_append, splitLinesAux, if_neg hc, ih h.2 r (c :: acc)]
    apply congrArg (· :: splitLinesAux r [])
    apply congrArg String.mk
    simp

theorem splitLinesAux_noNL :
    ∀ (m : List Char), m.contains '\n' = false → ∀ (acc : List Char),
      splitLinesAux m acc =
        if (acc.reverse ++ m).isEmpty then [] else [⟨acc.reverse ++ m⟩] := by
  intro m
  induction m with
  | nil =>
    intro _ acc
    cases acc with
    | nil => rfl
    | cons a l => simp [splitLinesAux]
  | cons c m ih =>
    intro h acc
    rw [List.contains_cons] at h
    simp only [Bool.or_eq_false_iff] at h
    have hc : ¬ c = '\n' := by
      intro hEq
      rw [hEq] at h
      simp at h
    rw [splitLinesAux, if_neg hc, ih h.2 (c :: acc)]
    have hlist : (c :: acc).reverse ++ m = acc.reverse ++ c :: m := by simp
    rw [hlist]

theorem eq_dropLast_append_nl :
    ∀ (l : List Char), l.getLast? = some '\n' → l = l.dropLast ++ ['\n']
  | [], h => by simp at h
  | [a], h => by
    simp [List.getLast?] at h
    rw [h]
    rfl
  | a :: b :: l, h => by
    have ih := eq_dropLast_append_nl (b :: l) (by simpa using h)
    show a :: (b :: l) = (a :: (b :: l).dropLast) ++ ['\n']
    rw [List.cons_append]
    exact congrArg (a :: ·) ih

theorem contains_nl_false :
    ∀ (l : List Char), l.dropLast.contains '\n' = false → ¬ l.getLast? = some '\n' →
      l.contains '\n' = false
  | [], _, _ => rfl
  | [a], _, h2 => by
    simp [List.getLast?] at h2
    simp [List.contains_cons]
    exact fun hEq => h2 hEq.symm
  | a :: b :: l, h1, h2 => by
    have h1' : (b :: l).dropLast.contains '\n' = false := by
      have : (a :: b :: l).dropLast = a :: (b :: l).dropLast := rfl
      rw [this, List.contains_cons] at h1
      simp only [Bool.or_eq_false_iff] at h1
      exact h1.2
    have ha : ('\n' == a) = false := by
      have : (a :: b :: l).dropLast = a :: (b :: l).dropLast := rfl
      rw [this, List.contains_cons] at h1
      simp only [Bool.or_eq_false_iff] at h1
      exact h1.1
    have ih := contains_nl_false (b :: l) h1' (by simpa using h2)
    rw [List.contains_cons, ha, ih]
    rfl

theorem splitLinesPy_joinAll :
    ∀ (cs : List String), linesChunksOK cs = true → splitLinesPy (joinAll cs) = cs := by
  intro cs
  induction cs with
  | nil => intro _; rfl
  | cons c rest ih =>
    intro h
    rw [linesChunksOK] at h
    simp only [Bool.and_eq_true, Bool.or_eq_true] at h
    obtain ⟨hchunk, hrest⟩ := h
    rw [lineChunkOK] at hchunk
    simp only [Bool.and_eq_true, Bool.not_eq_true'] at hchunk
    obtain ⟨hne, hnoNL⟩ := hchunk
    have hdata : (joinAll (c :: rest)).data = c.data ++ (joinAll rest).data := by
      simp [joinAll]
    rcases hrest with hnilb | hcont
    · have hrestnil : rest = [] := by
        cases hx : rest with
        | nil => rfl
        | cons y ys => rw [hx] at hnilb; simp at hnilb
      subst hrestnil
      rw [splitLinesPy]
      rw [show (joinAll [c]).data = c.data by simp [joinAll]]
      by_cases hl : c.data.getLast? = some '\n'
      · have hsplit := eq_dropLast_append_nl c.data hl
        rw [show c.data = c.data.dropLast ++ '\n' :: [] from by simpa using hsplit]
        rw [splitLinesAux_chunk c.data.dropLast hnoNL [] []]
        rw [show splitLinesAux [] [] = [] from rfl]
        apply congrArg (· :: [])
        rw [show ([] : List Char).reverse ++ c.data.dropLast ++ ['\n'] =
          c.data.dropLast ++ ['\n'] from by simp]
        rw [← hsplit]
      · have hnoNLall := contains_nl_false c.data hnoNL hl
        rw [splitLinesAux_noNL c.data hnoNLall []]
        rw [if_neg (by simpa using hne)]
        rfl
    · have hend : c.data.getLast? = some '\n' := by
        have := hcont.1
        simpa using this
      have hOKrest := hcont.2
      have hsplit := eq_dropLast_append_nl c.data hend
      rw [splitLinesPy, hdata]
      rw [show c.data ++ (joinAll rest).data =
        c.data.dropLast ++ '\n' :: (joinAll rest).data from by
          rw [hsplit]; simp]
      rw [splitLinesAux_chunk c.data.dropLast hnoNL _ []]
      rw [show splitLinesAux (joinAll rest).data [] = splitLinesPy (joinAll rest) from rfl]
      rw [ih hOKrest]
      apply congrArg (· :: rest)
      rw [show ([] : List Char).reverse ++ c.data.dropLast ++ ['\n'] =
        c.data.dropLast ++ ['\n'] from by simp]
      rw [← hsplit]

theorem linesChunksOK_of_sublist :
    ∀ {s l : List String}, s.Sublist l → linesChunksOK l = true → linesChunksOK s = true := by
  intro s l h
  induction h with
  | slnil => intro _; rfl
  | cons a h ih =>
    intro hOK
    apply ih
    rw [linesChunksOK] at hOK
    simp only [Bool.and_eq_true, Bool.or_eq_true] at hOK
    rename_i s' l'
    rcases hOK.2 with hnil | hcont
    · have hl : l' = [] := by
        cases hx : l' with
        | nil => rfl
        | cons y ys =>
          rw [hx] at hnil
          simp at hnil
      rw [hl]
      rfl
    · exact hcont.2
  | cons₂ a h ih =>
    intro hOK
    rw [linesChunksOK] at hOK
    simp only [Bool.and_eq_true, Bool.or_eq_true] at hOK
    rw [linesChunksOK]
    simp only [Bool.and_eq_true, Bool.or_eq_true]
    refine ⟨hOK.1, ?_⟩
    rename_i s' l'
    by_cases hs : s' = []
    · left
      rw [hs]
      rfl
    · have hl : l' ≠ [] := by
        intro h0
        rw [h0] at h
        exact hs (List.sublist_nil.mp h)
      rcases hOK.2 with hnil | hcont
      · exfalso
        apply hl
        cases hx : l' with
        | nil => rfl
        | cons y ys =>
          rw [hx] at hnil
          simp at hnil
      · exact Or.inr ⟨hcont.1, ih hcont.2⟩

/-- C9: U12 filtering is idempotent under restriction: when
`check_and_write_u12_file` succeeds on the (line-decomposed) input file, a
second run on the produced file `u12_data.txt` with the same transcript set
succeeds and writes byte-identical content, returning the same path. -/
theorem c9_u12_idempotent (u12_path temp_wd content : String)
    (u12_lines t_in_bed : List String) (fs : List (String × String))
    (hchunks : linesChunksOK u12_lines = true)
    (hrun : check_and_write_u12_file (some u12_path) u12_lines t_in_bed temp_wd fs =
      ((temp_wd ++ "/u12_data.txt", content) :: fs,
        .ok (some (temp_wd ++ "/u12_data.txt")))) :
    check_and_write_u12_file (some u12_path) (splitLinesPy content) t_in_bed temp_wd fs =
      ((temp_wd ++ "/u12_data.txt", content) :: fs,
        .ok (some (temp_wd ++ "/u12_data.txt"))) := by
  cases hc : u12CheckLines u12_path t_in_bed 1 u12_lines with
  | error e => simp [check_and_write_u12_file, hc] at hrun
  | ok filt =>
    by_cases h0 : filt.length = 0
    · simp [check_and_write_u12_file, hc, h0] at hrun
    · have hcontent : joinAll filt = content := by
        simp only [check_and_write_u12_file, hc] at hrun
        rw [if_neg h0] at hrun
        have := congrArg Prod.fst hrun
        simp only [List.cons.injEq, Prod.mk.injEq] at this
        exact this.1.2
      obtain ⟨hall, hfilt⟩ := u12CheckLines_ok_elim u12_path t_in_bed 1 u12_lines filt hc
      have hsub : filt.Sublist u12_lines := by
        rw [hfilt]
        exact List.filter_sublist _
      have hchunksf : linesChunksOK filt = true := linesChunksOK_of_sublist hsub hchunks
      have hsplit : splitLinesPy content = filt := by
        rw [← hcontent]
        exact splitLinesPy_joinAll filt hchunksf
      rw [hsplit]
      have hok2 : ∀ l ∈ filt, u12LineOK t_in_bed l = true :=
        fun l hl => hall l (hsub.subset hl)
      have hfix : filt.filter (u12InBed t_in_bed) = filt := by
        rw [List.filter_eq_self]
        intro l hl
        rw [hfilt] at hl
        exact (List.mem_filter.mp hl).2
      simp only [check_and_write_u12_file]
      rw [u12CheckLines_ok_all _ _ _ _ hok2, hfix]
      simp [h0, hcontent]

/-- Witness for C9 at a concrete successful run. -/
theorem c9_u12_idempotent_witness :
    check_and_write_u12_file (some "u12.tsv") (splitLinesPy "t1\t1\tA\n") ["t1"] "wd" [] =
      (("wd" ++ "/u12_data.txt", "t1\t1\tA\n") :: [],
        .ok (some ("wd" ++ "/u12_data.txt"))) :=
  c9_u12_idempotent "u12.tsv" "wd" "t1\t1\tA\n" ["t1\t1\tA\n", "tx\t2\tD\n"] ["t1"] []
    (by decide) (by rfl)

/-! ### String-containment helper lemmas for error-message claims -/

theorem containsCL_append_left (p : List Char) :
    ∀ (l r : List Char), containsCL p r = true → containsCL p (l ++ r) = true := by
  intro l
  induction l with
  | nil => intro r h; simpa using h
  | cons c l ih =>
    intro r h
    rw [List.cons_append, containsCL]
    rw [ih r h]
    simp

theorem strContains_append_left (a x pat : String) (h : strContains x pat = true) :
    strContains (a ++ x) pat = true := by
  rw [strContains, string_data_append]
  exact containsCL_append_left pat.data a.data x.data h

theorem strContains_self_append (p r : String) : strContains (p ++ r) p = true := by
  rw [strContains, string_data_append]
  exact containsCL_of_startsWithCL (startsWithCL_append p.data r.data)

/-! ### `check_isoforms_file` -/

/-- Error message for transcripts of the bed file missing from the isoforms
file (the Python f-string at source lines 179-183). -/
def isoMissingMsg (u_in_b : List String) : String :=
  "Error! There are " ++ (toString u_in_b.length ++
    (" transcripts in the bed file absent in the isoforms file! " ++
      ("There are the transcripts (first 100):\n" ++ joinWithNL (u_in_b.take 100))))

/-- One output line of the isoforms writing loop, the Python
`f"{gene}\t{trans}\n"` with `gene = isoform_to_gene[trans]`. -/
def isoLine (isoform_to_gene : List (String × String)) (trans : String) : String :=
  ((isoform_to_gene.lookup trans).getD "") ++ ("\t" ++ (trans ++ "\n"))

/-- `TogaSanityChecker.check_isoforms_file`.  `isoforms_arg` is the optional
isoforms file path; raw parsing is delegated to `read_isoforms_file` (an
external collaborator in `modules/common.py`), whose outputs — the
transcript-to-gene mapping and the two detected header fields — are inputs
here.  On success returns the written file's path together with its content. -/
def check_isoforms_file (isoforms_arg : Option String)
    (isoform_to_gene : List (String × String)) (header : String × String)
    (t_in_bed : List String) (temp_wd : String) :
    Except String (Option (String × String)) :=
  match isoforms_arg with
  | none => .ok none
  | some _ =>
    let isoforms_file := temp_wd ++ "/isoforms.tsv"
    let t_in_i := isoform_to_gene.map Prod.fst
    let u_in_b := t_in_bed.filter (fun t => decide (t ∉ t_in_i))
    if u_in_b.length ≠ 0 then
      .error (isoMissingMsg u_in_b)
    else
      let t_in_both := t_in_bed.filter (fun t => decide (t ∈ t_in_i))
      let skip_header := decide (header.2 ∈ t_in_bed)
      let out0 := if skip_header then "" else header.1 ++ "\t" ++ header.2 ++ "\n"
      let out := t_in_both.foldl (fun acc trans => acc ++ isoLine isoform_to_gene trans) out0
      .ok (some (isoforms_file, out))

/-- The content `check_isoforms_file` writes, in closed form: the optional
header line followed by one `gene\ttranscript\n` line per transcript of the
bed set that has an isoforms entry. -/
def isoformsContent (isoform_to_gene : List (String × String)) (header : String × String)
    (t_in_bed : List String) : String :=
  (if header.2 ∈ t_in_bed then "" else header.1 ++ "\t" ++ header.2 ++ "\n") ++
    joinAll ((t_in_bed.filter (fun t => decide (t ∈ isoform_to_gene.map Prod.fst))).map
      (isoLine isoform_to_gene))

theorem strAppend_assoc (a b c : String) : (a ++ b) ++ c = a ++ (b ++ c) :=
  congrArg String.mk (List.append_assoc a.data b.data c.data)

theorem strAppend_empty (a : String) : a ++ "" = a :=
  congrArg String.mk (List.append_nil a.data)

theorem joinAll_cons (x : String) (l : List String) : joinAll (x :: l) = x ++ joinAll l := rfl

theorem foldl_append_eq_joinAll (f : String → String) :
    ∀ (l : List String) (init : String),
      l.foldl (fun acc x => acc ++ f x) init = init ++ joinAll (l.map f) := by
  intro l
  induction l with
  | nil =>
    intro init
    rw [List.foldl_nil, List.map_nil]
    exact (strAppend_empty init).symm
  | cons x l ih =>
    intro init
    rw [List.foldl_cons, ih, List.map_cons, joinAll_cons, strAppend_assoc]

theorem check_isoforms_error (isoforms_path temp_wd : String)
    (isoform_to_gene : List (String × String)) (header : String × String)
    (t_in_bed : List String)
    (hne : t_in_bed.filter (fun t => decide (t ∉ isoform_to_gene.map Prod.fst)) ≠ []) :
    check_isoforms_file (some isoforms_path) isoform_to_gene header t_in_bed temp_wd =
      .error (isoMissingMsg
        (t_in_bed.filter (fun t => decide (t ∉ isoform_to_gene.map Prod.fst)))) := by
  simp only [check_isoforms_file]
  rw [if_pos]
  intro h0
  exact hne (List.length_eq_zero.mp h0)

theorem check_isoforms_ok (isoforms_path temp_wd : String)
    (isoform_to_gene : List (String × String)) (header : String × String)
    (t_in_bed : List String)
    (hcomplete : ∀ t ∈ t_in_bed, t ∈ isoform_to_gene.map Prod.fst) :
    check_isoforms_file (some isoforms_path) isoform_to_gene header t_in_bed temp_wd =
      .ok (some (temp_wd ++ "/isoforms.tsv", isoformsContent isoform_to_gene header t_in_bed)) := by
  simp only [check_isoforms_file]
  have hnil : t_in_bed.filter (fun t => decide (t ∉ isoform_to_gene.map Prod.fst)) = [] := by
    rw [List.filter_eq_nil_iff]
    intro t ht
    simpa using hcomplete t ht
  rw [if_neg (by rw [hnil]; simp)]
  rw [foldl_append_eq_joinAll, isoformsContent]
  rcases Bool.eq_false_or_eq_true (decide (header.2 ∈ t_in_bed)) with hdec | hdec
  · rw [hdec, if_pos (of_decide_eq_true hdec), if_pos rfl]
  · rw [hdec, if_neg (of_decide_eq_false hdec), if_neg (by simp)]

/-- C3: if some transcript of the set is absent from the parsed mapping's
keys, `check_isoforms_file` fails with a completeness error whose message
contains the true missing count and a sample of at most 100 missing ids;
conversely, when every transcript of the set is mapped, mapping entries for
transcripts outside the set never cause failure: the call succeeds and its
output contains one line per set transcript only, dropping the extras. -/
theorem c3_isoforms_completeness (isoforms_path temp_wd : String)
    (isoform_to_gene : List (String × String)) (header : String × String)
    (t_in_bed : List String) (hnd : t_in_bed.Nodup) :
    (t_in_bed.filter (fun t => decide (t ∉ isoform_to_gene.map Prod.fst)) ≠ [] →
      check_isoforms_file (some isoforms_path) isoform_to_gene header t_in_bed temp_wd =
        .error (isoMissingMsg
          (t_in_bed.filter (fun t => decide (t ∉ isoform_to_gene.map Prod.fst)))) ∧
      strContains
        (isoMissingMsg (t_in_bed.filter (fun t => decide (t ∉ isoform_to_gene.map Prod.fst))))
        (toString (t_in_bed.filter (fun t => decide (t ∉ isoform_to_gene.map Prod.fst))).length) =
          true ∧
      strContains
        (isoMissingMsg (t_in_bed.filter (fun t => decide (t ∉ isoform_to_gene.map Prod.fst))))
        (joinWithNL
          ((t_in_bed.filter (fun t => decide (t ∉ isoform_to_gene.map Prod.fst))).take 100)) =
          true ∧
      ((t_in_bed.filter (fun t => decide (t ∉ isoform_to_gene.map Prod.fst))).take 100).length ≤
        100) ∧
    ((∀ t ∈ t_in_bed, t ∈ isoform_to_gene.map Prod.fst) →
      check_isoforms_file (some isoforms_path) isoform_to_gene header t_in_bed temp_wd =
        .ok (some (temp_wd ++ "/isoforms.tsv",
          isoformsContent isoform_to_gene header t_in_bed))) := by
  constructor
  · intro hne
    refine ⟨check_isoforms_error _ _ _ _ _ hne, ?_, ?_, List.length_take_le _ _⟩
    · rw [isoMissingMsg]
      exact strContains_append_mid _ _ _
    · rw [isoMissingMsg]
      apply strContains_append_left
      apply strContains_append_left
      apply strContains_append_left
      exact strContains_append_right _ _
  · intro hcomplete
    exact check_isoforms_ok _ _ _ _ _ hcomplete

/-- Witness for C3: a set `{t1, t2}` against a mapping containing only `t1`
fails with the completeness error. -/
theorem c3_isoforms_completeness_witness :
    check_isoforms_file (some "isoforms.tsv") [("t1", "g1")] ("gene", "transcript")
      ["t1", "t2"] "wd" =
      .error (isoMissingMsg
        ((["t1", "t2"] : List String).filter
          (fun t => decide (t ∉ ([("t1", "g1")] : List (String × String)).map Prod.fst)))) :=
  ((c3_isoforms_completeness "isoforms.tsv" "wd" [("t1", "g1")] ("gene", "transcript")
    ["t1", "t2"] (by decide)).1 (by decide)).1

/-- C4 counterexample: with mapping `t1 ↦ g1`, detected header row
`(g1, t1)` and transcript set `{t1}`, the written file is exactly the body
line `g1\tt1\n`, which does begin with the would-be header line even though
the header's second field IS in the set — refuting the claimed "if and only
if". -/
theorem c4_counterexample :
    check_isoforms_file (some "isoforms.tsv") [("t1", "g1")] ("g1", "t1") ["t1"] "wd" =
      .ok (some ("wd/isoforms.tsv", "g1\tt1\n")) ∧
    ¬ ((strStartsWith "g1\tt1\n" ("g1" ++ "\t" ++ "t1" ++ "\n") = true) ↔
        "t1" ∉ (["t1"] : List String)) := by
  constructor
  · rfl
  · intro hiff
    exact (hiff.mp (by decide)) (by decide)

/-- C4 amended: the output is the optional header line followed by the body;
a header line is written (as the first line) exactly when the detected
header's second field is not in the transcript set — when it is in the set no
header line is written and the output is the body alone (though a body line
may coincidentally equal the would-be header line); the body holds exactly
one `gene\ttranscript` line per transcript in the intersection of the set and
the mapping's keys. -/
theorem c4_isoforms_output (isoforms_path temp_wd : String)
    (isoform_to_gene : List (String × String)) (header : String × String)
    (t_in_bed : List String) (hnd : t_in_bed.Nodup)
    (hcomplete : ∀ t ∈ t_in_bed, t ∈ isoform_to_gene.map Prod.fst) :
    check_isoforms_file (some isoforms_path) isoform_to_gene header t_in_bed temp_wd =
      .ok (some (temp_wd ++ "/isoforms.tsv", isoformsContent isoform_to_gene header t_in_bed)) ∧
    (header.2 ∉ t_in_bed →
      isoformsContent isoform_to_gene header t_in_bed =
        (header.1 ++ "\t" ++ header.2 ++ "\n") ++
          joinAll ((t_in_bed.filter (fun t => decide (t ∈ isoform_to_gene.map Prod.fst))).map
            (isoLine isoform_to_gene))) ∧
    (header.2 ∈ t_in_bed →
      isoformsContent isoform_to_gene header t_in_bed =
        joinAll ((t_in_bed.filter (fun t => decide (t ∈ isoform_to_gene.map Prod.fst))).map
          (isoLine isoform_to_gene))) ∧
    (t_in_bed.filter (fun t => decide (t ∈ isoform_to_gene.map Prod.fst))).Nodup ∧
    (∀ x, x ∈ t_in_bed.filter (fun t => decide (t ∈ isoform_to_gene.map Prod.fst)) ↔
      (x ∈ t_in_bed ∧ x ∈ isoform_to_gene.map Prod.fst)) := by
  refine ⟨check_isoforms_ok _ _ _ _ _ hcomplete, ?_, ?_, hnd.filter _, ?_⟩
  · intro hno
    rw [isoformsContent, if_neg hno, strAppend_assoc, strAppend_assoc]
  · intro hyes
    rw [isoformsContent, if_pos hyes]
    rfl
  · intro x
    rw [List.mem_filter]
    simp

/-- Witness for C4 amended: a run with a genuine header (second field not a
transcript) and one extra mapping entry outside the set. -/
theorem c4_isoforms_output_witness :
    check_isoforms_file (some "isoforms.tsv") [("t1", "g1"), ("t9", "g9")]
      ("gene", "transcript") ["t1"] "wd" =
      .ok (some ("wd" ++ "/isoforms.tsv",
        isoformsContent [("t1", "g1"), ("t9", "g9")] ("gene", "transcript") ["t1"])) :=
  (c4_isoforms_output "isoforms.tsv" "wd" [("t1", "g1"), ("t9", "g9")]
    ("gene", "transcript") ["t1"] (by decide) (by decide)).1

/-! ### `check_chains_classified` -/

/-- Error message of `check_chains_classified` (source line 215). -/
def chainsEmptyMsg (chain_results_df : String) : String :=
  "Chain results file " ++ (chain_results_df ++ (" is empty! Abort."))

/-- `TogaSanityChecker.check_chains_classified`: `has_more_than_one_line`
reads at most two lines (`islice(f, 2)`) and the check fails when the file
does not have more than one line. -/
def check_chains_classified (chain_results_df : String) (file_lines : List String) :
    Except String Unit :=
  let is_complete := decide ((file_lines.take 2).length > 1)
  if is_complete = false then .error (chainsEmptyMsg chain_results_df)
  else .ok ()

/-- C8: `check_chains_classified` raises the fatal error naming the file iff
the classification-result file has at most one line, and succeeds with no
value on two or more lines. -/
theorem c8_chains_classified (chain_results_df : String) (file_lines : List String) :
    ((∃ e, check_chains_classified chain_results_df file_lines = .error e) ↔
      file_lines.length ≤ 1) ∧
    (file_lines.length ≤ 1 →
      check_chains_classified chain_results_df file_lines =
        .error (chainsEmptyMsg chain_results_df)) ∧
    (2 ≤ file_lines.length →
      check_chains_classified chain_results_df file_lines = .ok ()) ∧
    strContains (chainsEmptyMsg chain_results_df) chain_results_df = true := by
  have hmin : (file_lines.take 2).length = min 2 file_lines.length :=
    List.length_take _ _
  have herr : file_lines.length ≤ 1 →
      check_chains_classified chain_results_df file_lines =
        .error (chainsEmptyMsg chain_results_df) := by
    intro h
    have hnot : ¬ ((file_lines.take 2).length > 1) := by
      rw [hmin]
      omega
    simp only [check_chains_classified]
    rw [decide_eq_false hnot, if_pos rfl]
  have hok : 2 ≤ file_lines.length →
      check_chains_classified chain_results_df file_lines = .ok () := by
    intro h
    have hgt : (file_lines.take 2).length > 1 := by
      rw [hmin]
      omega
    simp only [check_chains_classified]
    rw [decide_eq_true hgt, if_neg (by simp)]
  refine ⟨⟨?_, fun h => ⟨_, herr h⟩⟩, herr, hok, ?_⟩
  · rintro ⟨e, he⟩
    by_contra hgt
    rw [hok (by omega)] at he
    exact Except.noConfusion he
  · rw [chainsEmptyMsg]
    exact strContains_append_mid _ _ _

/-! ### C7: completeness-error message contents -/

theorem check_2bit_error_missing (two_bit_file chrom_file : String)
    (tb : List (String × Nat)) (cs : List (String × Option Nat))
    (hne : (cs.map Prod.fst).filter (fun c => decide (c ∉ tb.map Prod.fst)) ≠ []) :
    check_2bit_file_completeness two_bit_file tb cs chrom_file =
      .error (twobitMissingMsg two_bit_file chrom_file
        ((cs.map Prod.fst).filter (fun c => decide (c ∉ tb.map Prod.fst)))) := by
  simp only [check_2bit_file_completeness]
  rw [if_pos]
  exact List.length_pos.mpr hne

/-- C7 counterexample: a run with 5 missing chromosomes raises the 2bit
missing-chromosome completeness error, but its message nowhere contains the
true total count `5` — the claim that every completeness-error message
includes the true count fails. -/
theorem c7_counterexample :
    check_2bit_file_completeness "tb" []
        [("aa", none), ("bb", none), ("cc", none), ("dd", none), ("ee", none)] "cf" =
      .error (twobitMissingMsg "tb" "cf" ["aa", "bb", "cc", "dd", "ee"]) ∧
    (([("aa", (none : Option Nat)), ("bb", none), ("cc", none), ("dd", none),
        ("ee", none)].map Prod.fst).length = 5) ∧
    strContains (twobitMissingMsg "tb" "cf" ["aa", "bb", "cc", "dd", "ee"])
      (toString (5 : Nat)) = false := by
  refine ⟨?_, by decide, by decide⟩
  rfl

/-- C7 amended: every completeness-error message of the checkers contains a
bounded sample of at most 100 offending identifiers; the isoforms
missing-transcript message additionally contains the true total count, but
the 2bit missing-chromosome message does not include the count. -/
theorem c7_completeness_messages :
    (∀ (two_bit_file chrom_file : String) (tb : List (String × Nat))
        (cs : List (String × Option Nat)),
      (cs.map Prod.fst).filter (fun c => decide (c ∉ tb.map Prod.fst)) ≠ [] →
        check_2bit_file_completeness two_bit_file tb cs chrom_file =
          .error (twobitMissingMsg two_bit_file chrom_file
            ((cs.map Prod.fst).filter (fun c => decide (c ∉ tb.map Prod.fst)))) ∧
        strContains
          (twobitMissingMsg two_bit_file chrom_file
            ((cs.map Prod.fst).filter (fun c => decide (c ∉ tb.map Prod.fst))))
          (joinWithNL (((cs.map Prod.fst).filter
            (fun c => decide (c ∉ tb.map Prod.fst))).take 100)) = true ∧
        (((cs.map Prod.fst).filter (fun c => decide (c ∉ tb.map Prod.fst))).take 100).length ≤
          100) ∧
    (∀ (isoforms_path temp_wd : String) (isoform_to_gene : List (String × String))
        (header : String × String) (t_in_bed : List String),
      t_in_bed.filter (fun t => decide (t ∉ isoform_to_gene.map Prod.fst)) ≠ [] →
        check_isoforms_file (some isoforms_path) isoform_to_gene header t_in_bed temp_wd =
          .error (isoMissingMsg
            (t_in_bed.filter (fun t => decide (t ∉ isoform_to_gene.map Prod.fst)))) ∧
        strContains
          (isoMissingMsg (t_in_bed.filter (fun t => decide (t ∉ isoform_to_gene.map Prod.fst))))
          (toString
            (t_in_bed.filter (fun t => decide (t ∉ isoform_to_gene.map Prod.fst))).length) =
          true ∧
        strContains
          (isoMissingMsg (t_in_bed.filter (fun t => decide (t ∉ isoform_to_gene.map Prod.fst))))
          (joinWithNL ((t_in_bed.filter
            (fun t => decide (t ∉ isoform_to_gene.map Prod.fst))).take 100)) = true ∧
        ((t_in_bed.filter (fun t => decide (t ∉ isoform_to_gene.map Prod.fst))).take 100).length ≤
          100) := by
  constructor
  · intro two_bit_file chrom_file tb cs hne
    refine ⟨check_2bit_error_missing _ _ _ _ hne, ?_, List.length_take_le _ _⟩
    rw [twobitMissingMsg]
    apply strContains_append_left
    apply strContains_append_left
    exact strContains_append_right _ _
  · intro isoforms_path temp_wd isoform_to_gene header t_in_bed hne
    refine ⟨check_isoforms_error _ _ _ _ _ hne, ?_, ?_, List.length_take_le _ _⟩
    · rw [isoMissingMsg]
      exact strContains_append_mid _ _ _
    · rw [isoMissingMsg]
      apply strContains_append_left
      apply strContains_append_left
      apply strContains_append_left
      exact strContains_append_right _ _

/-- Witness for C7 amended: both universal parts applied at concrete inputs. -/
theorem c7_completeness_messages_witness :
    check_2bit_file_completeness "genome.2bit" [("chr1", 100)] [("chrX", none)] "in.chain" =
      .error (twobitMissingMsg "genome.2bit" "in.chain"
        (((([("chrX", (none : Option Nat))]).map Prod.fst)).filter
          (fun c => decide (c ∉ ([("chr1", 100)] : List (String × Nat)).map Prod.fst)))) ∧
    check_isoforms_file (some "isoforms.tsv") [] ("gene", "transcript") ["t1"] "wd" =
      .error (isoMissingMsg
        ((["t1"] : List String).filter
          (fun t => decide (t ∉ ([] : List (String × String)).map Prod.fst)))) :=
  ⟨((c7_completeness_messages.1 "genome.2bit" "in.chain" [("chr1", 100)] [("chrX", none)]
      (by decide))).1,
    ((c7_completeness_messages.2 "isoforms.tsv" "wd" [] ("gene", "transcript") ["t1"]
      (by decide))).1⟩
